import Mathlib

/-!
# Verification of the sim-device-command handler (MASCOT-GO)

Shallow embedding of `SimDeviceCmdHandler` (package `handler`): the command
normalizer `normalizeCommand`, the positional word-prefix matcher
`prefixMatchByWords`, and the create / get / update / delete / match
operations, modelled as pure functions over an explicit record store.

Go strings are modelled as lists of Unicode code points (`List Nat`); a Go
`for range` over a string yields runes, and all the string operations the
handler uses (`TrimSpace`, `Fields`, `ReplaceAll`, `ToLower`, `HasPrefix`,
`Join`) are rune-wise.  Lower-casing is modelled on the ASCII range, which
the spec (§4.1) declares sufficient for the domain; SQLite's `LOWER` is
ASCII-only as well.
-/

/-- A Go string as its list of Unicode code points. -/
abbrev Str := List Nat

/-- Embed a Lean string literal as a `Str`. -/
def str (s : String) : Str := s.toList.map Char.toNat

/-- Go `unicode.IsSpace` on a code point: the Latin-1 whitespace characters
plus the Unicode `White_Space` code points. -/
def goIsSpace (c : Nat) : Bool :=
  decide (c = 9 ∨ c = 10 ∨ c = 11 ∨ c = 12 ∨ c = 13 ∨ c = 32 ∨
    c = 133 ∨ c = 160 ∨ c = 0x1680 ∨ (0x2000 ≤ c ∧ c ≤ 0x200A) ∨
    c = 0x2028 ∨ c = 0x2029 ∨ c = 0x202F ∨ c = 0x205F ∨ c = 0x3000)

/-- Go `strings.TrimSpace`: drop leading and trailing whitespace. -/
def goTrimSpace (s : Str) : Str :=
  ((s.dropWhile goIsSpace).reverse.dropWhile goIsSpace).reverse

/-- Go `strings.ReplaceAll(s, "\r\n", "\n")`: leftmost, non-overlapping. -/
def replaceCRLF : Str → Str
  | 13 :: 10 :: rest => 10 :: replaceCRLF rest
  | c :: rest => c :: replaceCRLF rest
  | [] => []

/-- Go `strings.ReplaceAll(s, "\t", " ")`. -/
def replaceTab (s : Str) : Str :=
  s.map (fun c => if c = 9 then 32 else c)

/-- Accumulator pass of Go `strings.Fields`: split around runs of
whitespace, dropping empty fields.  `acc` holds the current field reversed. -/
def fieldsAux : Str → Str → List Str
  | [], acc => if acc = [] then [] else [acc.reverse]
  | c :: rest, acc =>
    if goIsSpace c then
      if acc = [] then fieldsAux rest [] else acc.reverse :: fieldsAux rest []
    else fieldsAux rest (c :: acc)

/-- Go `strings.Fields`. -/
def goFields (s : Str) : List Str := fieldsAux s []

/-- Go `strings.Join(words, " ")`. -/
def joinSpace : List Str → Str
  | [] => []
  | [w] => w
  | w :: rest => w ++ 32 :: joinSpace rest

/-- Lower-case one code point (ASCII range; see the header comment). -/
def goToLower (c : Nat) : Nat :=
  if 65 ≤ c ∧ c ≤ 90 then c + 32 else c

/-- Lower-case a string code-point-wise: Go `strings.ToLower` and SQLite's
`LOWER`, both ASCII on this domain. -/
def strToLower (s : Str) : Str := s.map goToLower

/-- `normalizeCommand` (part_000 lines 25–32): trim; empty stays empty;
CRLF→LF; TAB→SPACE; collapse whitespace runs by split/rejoin; lower-case. -/
def normalizeCommand (s : Str) : Str :=
  let s1 := goTrimSpace s
  if s1 = [] then s1
  else
    let s2 := replaceCRLF s1
    let s3 := replaceTab s2
    let s4 := joinSpace (goFields s3)
    strToLower s4

/-- Go `strings.Join(lines, "\n")`. -/
def joinNL : List Str → Str
  | [] => []
  | [w] => w
  | w :: rest => w ++ 10 :: joinNL rest

/-- Go `strings.HasPrefix(s, pre)`. -/
def strStarts (s pre : Str) : Bool := pre.isPrefixOf s

/-- The index loop of `prefixMatchByWords`: word `i` of the input must be a
literal prefix of word `i` of the candidate. -/
def prefixPairs : List Str → List Str → Bool
  | [], _ => true
  | _ :: _, [] => false
  | a :: as, b :: bs => strStarts b a && prefixPairs as bs

/-- `prefixMatchByWords` (part_000 lines 35–44). -/
def prefixMatchByWords (input candidate : Str) : Bool :=
  let inw := goFields (normalizeCommand input)
  let cand := goFields (normalizeCommand candidate)
  if inw = [] then false
  else if cand.length < inw.length then false
  else prefixPairs inw cand

/-!
## Data model and store

`model.SimDeviceCommand` is declared in `internal/model`, outside the given
sources.  Modelled from the spec (§3 CommandRecord): id (store-assigned),
namespace, deviceName, command (stored verbatim), output, enabled.  The
`updatedAt` timestamp is omitted: no claim concerns it.

The store stands for the collaborator database.  Records are kept in
insertion order with store-assigned strictly increasing ids, so the head of
a filtered scan is also the row gorm's `First` (ordered by primary key)
returns; `Store.WF` states the resulting invariants.  `WithRetry` wraps
mutations against transient contention; the model takes the success path of
every store call, so retries are invisible.
-/

/-- The persisted entity (spec §3); `nspace` embeds the `Namespace` field
(`namespace` is reserved in Lean). -/
structure SimDeviceCommand where
  id : Nat
  nspace : Str
  deviceName : Str
  command : Str
  output : Str
  enabled : Bool
deriving DecidableEq, Repr

/-- The collaborator store: issued ids are below `nextId`. -/
structure Store where
  nextId : Nat
  records : List SimDeviceCommand
deriving DecidableEq, Repr

/-- The empty store. -/
def Store.init : Store := ⟨1, []⟩

/-- Well-formed store: ids are distinct, issued, and listed in the
(ascending-id) insertion order that makes list order = primary-key order. -/
def Store.WF (st : Store) : Prop :=
  (st.records.map (·.id)).Nodup ∧
  (∀ r ∈ st.records, 0 < r.id ∧ r.id < st.nextId) ∧
  (st.records.map (·.id)).Sorted (· < ·)

/-- The uniqueness invariant of spec §3: within a namespace+device pair no
two records have case-insensitively equal commands. -/
def Store.KeyUnique (st : Store) : Prop :=
  ∀ r ∈ st.records, ∀ s ∈ st.records,
    r.nspace = s.nspace → r.deviceName = s.deviceName →
    strToLower r.command = strToLower s.command → r = s

instance (st : Store) : Decidable st.KeyUnique :=
  inferInstanceAs (Decidable (∀ r ∈ st.records, ∀ s ∈ st.records,
    r.nspace = s.nspace → r.deviceName = s.deviceName →
    strToLower r.command = strToLower s.command → r = s))

/-- The dedup lookup predicate used by create and update:
`namespace = ? AND device_name = ? AND LOWER(command) = LOWER(?)`. -/
def keyMatch (ns dev cmd : Str) (r : SimDeviceCommand) : Bool :=
  r.nspace == ns && r.deviceName == dev && strToLower r.command == strToLower cmd

/-- `First` by the dedup key (gorm `First` = lowest primary key; list order
under `Store.WF`). -/
def findByKey (st : Store) (ns dev cmd : Str) : Option SimDeviceCommand :=
  st.records.find? (keyMatch ns dev cmd)

/-- `First(&item, id)`: fetch by primary key. -/
def findById (st : Store) (i : Nat) : Option SimDeviceCommand :=
  st.records.find? (fun r => r.id == i)

/-- `Model(&r).Updates(...)`: rewrite the record with primary key `i`. -/
def updateById (st : Store) (i : Nat) (f : SimDeviceCommand → SimDeviceCommand) : Store :=
  { st with records := st.records.map (fun r => if r.id = i then f r else r) }

/-- `Delete` by primary key: removes the matching rows, no error when none
match (gorm reports zero rows affected, not an error). -/
def deleteById (st : Store) (i : Nat) : Store :=
  { st with records := st.records.filter (fun r => r.id ≠ i) }

/-- `Create(&req)`: insert with a fresh store-assigned id. -/
def insertRecord (st : Store) (ns dev cmd out : Str) (en : Bool) : Store × SimDeviceCommand :=
  let r : SimDeviceCommand := ⟨st.nextId, ns, dev, cmd, out, en⟩
  (⟨st.nextId + 1, st.records ++ [r]⟩, r)

/-!
## Handlers

Each handler is a function from the store and the (already JSON-bound)
request to the new store and a response.  JSON-binding failures
(`INVALID_PARAMS`) happen before any modelled logic and are not represented;
store errors are not represented (success path, see above).
-/

/-- A bound request body: `model.SimDeviceCommand` without the
store-assigned id. -/
structure CmdReq where
  nspace : Str
  deviceName : Str
  command : Str
  output : Str
  enabled : Bool
deriving DecidableEq, Repr

/-- Response of `CreateSimDeviceCmd`. -/
inductive CreateResult where
  /-- 400 MISSING_FIELDS -/
  | missingFields
  /-- 200 SUCCESS "已更新现有记录" with the refreshed existing record -/
  | updatedExisting (data : SimDeviceCommand)
  /-- 201 SUCCESS "创建成功" with the inserted record -/
  | created (data : SimDeviceCommand)
deriving DecidableEq, Repr

/-- `CreateSimDeviceCmd` (part_000 lines 47–86). -/
def createSimDeviceCmd (st : Store) (req : CmdReq) : Store × CreateResult :=
  let ns := goTrimSpace req.nspace
  let dev := goTrimSpace req.deviceName
  let cmd := goTrimSpace req.command
  if ns = [] ∨ dev = [] ∨ cmd = [] then (st, .missingFields)
  else
    -- 默认启用: if !req.Enabled { req.Enabled = true }
    let en := if !req.enabled then true else req.enabled
    match findByKey st ns dev cmd with
    | some existing =>
      -- 已存在：更新其回显与启用状态 (map {"output", "enabled"}); gorm
      -- Updates also assigns the map onto the struct returned as data.
      let refreshed := { existing with output := req.output, enabled := en }
      (updateById st existing.id (fun r => { r with output := req.output, enabled := en }),
       .updatedExisting refreshed)
    | none =>
      let (st1, r) := insertRecord st ns dev cmd req.output en
      (st1, .created r)

/-- Response of `GetSimDeviceCmd`. -/
inductive GetResult where
  /-- 400 INVALID_ID -/
  | invalidId
  /-- 404 NOT_FOUND "记录不存在" -/
  | notFound
  /-- 200 SUCCESS with the record -/
  | found (data : SimDeviceCommand)
deriving DecidableEq, Repr

/-- `GetSimDeviceCmd` (part_000 lines 120–134). -/
def getSimDeviceCmd (st : Store) (id : Nat) : Store × GetResult :=
  if id ≤ 0 then (st, .invalidId)
  else
    match findById st id with
    | some item => (st, .found item)
    | none => (st, .notFound)

/-- Response of `UpdateSimDeviceCmd`. -/
inductive UpdateResult where
  /-- 400 INVALID_ID -/
  | invalidId
  /-- 404 NOT_FOUND "记录不存在" -/
  | notFound
  /-- 200 SUCCESS "已合并到唯一记录" with the surviving record -/
  | merged (data : SimDeviceCommand)
  /-- 200 SUCCESS "更新成功" with the updated record -/
  | updated (data : SimDeviceCommand)
deriving DecidableEq, Repr

/-- The normal-update branch of `UpdateSimDeviceCmd` (part_000 lines
181–193): the change-detected field map applied to the target record
(blank output means keep current, enabled applied verbatim). -/
def updateNormal (st : Store) (item : SimDeviceCommand) (req : CmdReq)
    (newNS newDev newCmd : Str) : Store × UpdateResult :=
  let newOut := if goTrimSpace req.output ≠ [] then req.output else item.output
  let item1 := { item with nspace := newNS, deviceName := newDev, command := newCmd,
                           output := newOut, enabled := req.enabled }
  (updateById st item.id (fun _ => item1), .updated item1)

/-- The merge branch of `UpdateSimDeviceCmd` (part_000 lines 166–178):
refresh the colliding record, delete the target, respond with the
survivor. -/
def updateMerge (st : Store) (item other : SimDeviceCommand) (req : CmdReq) :
    Store × UpdateResult :=
  let newOut := if goTrimSpace req.output ≠ [] then req.output else item.output
  let survivor := { other with output := newOut, enabled := req.enabled }
  let st1 := updateById st other.id (fun r => { r with output := newOut, enabled := req.enabled })
  let st2 := deleteById st1 item.id
  (st2, .merged survivor)

/-- The body of `UpdateSimDeviceCmd` once the target record is loaded
(part_000 lines 157–193): resolve the prospective key with blank-fallback,
then merge or update normally. -/
def updateWithItem (st : Store) (item : SimDeviceCommand) (req : CmdReq) :
    Store × UpdateResult :=
  let newNS := if goTrimSpace req.nspace = [] then item.nspace else goTrimSpace req.nspace
  let newDev := if goTrimSpace req.deviceName = [] then item.deviceName else goTrimSpace req.deviceName
  let newCmd := if goTrimSpace req.command = [] then item.command else goTrimSpace req.command
  match findByKey st newNS newDev newCmd with
  | some other =>
    if other.id ≠ item.id then updateMerge st item other req
    else updateNormal st item req newNS newDev newCmd
  | none => updateNormal st item req newNS newDev newCmd

/-- `UpdateSimDeviceCmd` (part_000 lines 137–194). -/
def updateSimDeviceCmd (st : Store) (id : Nat) (req : CmdReq) : Store × UpdateResult :=
  if id ≤ 0 then (st, .invalidId)
  else
    match findById st id with
    | none => (st, .notFound)
    | some item => updateWithItem st item req

/-- Response of `DeleteSimDeviceCmd`.  There is no not-found case: gorm's
`Delete` of an absent id succeeds with zero rows affected. -/
inductive DeleteResult where
  /-- 400 INVALID_ID -/
  | invalidId
  /-- 200 SUCCESS "删除成功" -/
  | success
deriving DecidableEq, Repr

/-- `DeleteSimDeviceCmd` (part_000 lines 197–211). -/
def deleteSimDeviceCmd (st : Store) (id : Nat) : Store × DeleteResult :=
  if id ≤ 0 then (st, .invalidId)
  else (deleteById st id, .success)

/-- The JSON payload of a successful match response. -/
structure MatchData where
  matchType : Str
  output : Str
deriving DecidableEq, Repr

/-- Response of `MatchSimDeviceCmd`. -/
inductive MatchResult where
  /-- 400 MISSING_FIELDS -/
  | missingFields
  /-- 200 SUCCESS with match_type and output -/
  | ok (data : MatchData)
deriving DecidableEq, Repr

/-- The scan loop of `MatchSimDeviceCmd` (part_000 lines 245–254): first
normalized-equal record wins and stops the scan; otherwise positional
prefix matches are collected in scan order. -/
def scanItems (inNorm : Str) (input : Str) : List SimDeviceCommand →
    Option SimDeviceCommand × List SimDeviceCommand
  | [] => (none, [])
  | it :: rest =>
    if inNorm = normalizeCommand it.command then (some it, [])
    else
      let (e, cs) := scanItems inNorm input rest
      if prefixMatchByWords input it.command then (e, it :: cs) else (e, cs)

/-- The candidate query of `MatchSimDeviceCmd` (part_000 lines 235–237):
records of the namespace and device, restricted to enabled ones when
`enabled_only` is set, in store order. -/
def matchCandidates (st : Store) (ns dev : Str) (enabledOnly : Bool) : List SimDeviceCommand :=
  st.records.filter (fun r => r.nspace == ns && r.deviceName == dev && (!enabledOnly || r.enabled))

/-- The response classification of `MatchSimDeviceCmd` (part_000 lines
256–274): exact wins; then the `len(candidates) == 1` / `> 1` / else
cascade, as a shape match. -/
def classifyMatch (input : Str) (items : List SimDeviceCommand) : MatchData :=
  match scanItems (normalizeCommand input) input items with
  | (some e, _) => ⟨str "exact", e.output⟩
  | (none, [c]) => ⟨str "partial_single", c.output⟩
  | (none, []) => ⟨str "none", str "unspport command"⟩
  | (none, cs) =>
    ⟨str "partial_multi",
      joinNL (str "which command do you mean?" ::
        cs.map (fun it => str " -- " ++ goTrimSpace it.command))⟩

/-- `MatchSimDeviceCmd` (part_000 lines 214–274). -/
def matchSimDeviceCmd (st : Store) (reqNS reqDev reqCmd : Str) (enabledOnly : Bool) :
    Store × MatchResult :=
  let ns := goTrimSpace reqNS
  let dev := goTrimSpace reqDev
  let input := goTrimSpace reqCmd
  if ns = [] ∨ dev = [] ∨ input = [] then (st, .missingFields)
  else (st, .ok (classifyMatch input (matchCandidates st ns dev enabledOnly)))

/-!
## String-layer lemmas

`normalizeCommand` is split/rejoin composed with lower-casing; the lemmas
below reduce it to a canonical form `strToLower (joinSpace (goFields s))`
and give the algebra of `goFields` needed by the claims.
-/

example : normalizeCommand (str "  Show  IP\tInterface ") = str "show ip interface" := by decide
example : normalizeCommand (str "") = str "" := by decide
example : prefixMatchByWords (str "sh ip int") (str "show ip interface brief") = true := by decide
example : prefixMatchByWords (str "sh ip intx") (str "show ip interface brief") = false := by decide
example : prefixMatchByWords (str "  ") (str "show") = false := by decide

theorem goIsSpace_goToLower (c : Nat) : goIsSpace (goToLower c) = goIsSpace c := by
  unfold goToLower
  split
  · simp only [goIsSpace, decide_eq_decide]
    omega
  · rfl

theorem goToLower_idem (c : Nat) : goToLower (goToLower c) = goToLower c := by
  by_cases h : 65 ≤ c ∧ c ≤ 90
  · simp only [goToLower, if_pos h]
    rw [if_neg (by omega)]
  · simp only [goToLower, if_neg h]

theorem strToLower_idem (s : Str) : strToLower (strToLower s) = strToLower s := by
  simp only [strToLower, List.map_map]
  exact List.map_congr_left fun c _ => goToLower_idem c

theorem fieldsAux_allSpace : ∀ {t : Str}, (∀ c ∈ t, goIsSpace c = true) →
    ∀ acc : Str, fieldsAux t acc = if acc = [] then [] else [acc.reverse] := by
  intro t
  induction t with
  | nil => intro _ acc; rfl
  | cons c t ih =>
    intro ht acc
    have hc : goIsSpace c = true := ht c (List.mem_cons_self c t)
    have ht' : ∀ d ∈ t, goIsSpace d = true := fun d hd => ht d (List.mem_cons_of_mem c hd)
    have h0 : fieldsAux t [] = [] := by simpa using ih ht' []
    simp only [fieldsAux, hc, if_true]
    by_cases ha : acc = [] <;> simp [ha, h0]

theorem fieldsAux_append_allSpace {t : Str} (ht : ∀ c ∈ t, goIsSpace c = true) :
    ∀ (s : Str) (acc : Str), fieldsAux (s ++ t) acc = fieldsAux s acc := by
  intro s
  induction s with
  | nil =>
    intro acc
    simpa [fieldsAux] using fieldsAux_allSpace ht acc
  | cons c s ih =>
    intro acc
    by_cases hc : goIsSpace c <;> simp [fieldsAux, hc, ih]

theorem fieldsAux_dropWhile (s : Str) :
    fieldsAux (s.dropWhile goIsSpace) [] = fieldsAux s [] := by
  induction s with
  | nil => rfl
  | cons c s ih =>
    by_cases hc : goIsSpace c <;> simp [List.dropWhile_cons, fieldsAux, hc, ih]

theorem goFields_goTrimSpace (s : Str) : goFields (goTrimSpace s) = goFields s := by
  unfold goFields goTrimSpace
  set t := s.dropWhile goIsSpace with ht
  have hsplit : t = ((t.reverse.dropWhile goIsSpace).reverse) ++ ((t.reverse.takeWhile goIsSpace).reverse) := by
    conv_lhs => rw [← List.reverse_reverse t]
    rw [← List.reverse_append, List.takeWhile_append_dropWhile]
  have hsp : ∀ c ∈ (t.reverse.takeWhile goIsSpace).reverse, goIsSpace c = true := by
    intro c hc
    exact List.mem_takeWhile_imp (List.mem_reverse.mp hc)
  calc fieldsAux ((t.reverse.dropWhile goIsSpace).reverse) []
      = fieldsAux (((t.reverse.dropWhile goIsSpace).reverse) ++ ((t.reverse.takeWhile goIsSpace).reverse)) [] :=
        (fieldsAux_append_allSpace hsp _ _).symm
    _ = fieldsAux t [] := by rw [← hsplit]
    _ = fieldsAux s [] := fieldsAux_dropWhile s

theorem replaceCRLF_cons_ne (c : Nat) (rest : Str) (h : c ≠ 13) :
    replaceCRLF (c :: rest) = c :: replaceCRLF rest := by
  conv_lhs => unfold replaceCRLF
  split <;> simp_all

theorem replaceCRLF_cons13_ne (d : Nat) (rest : Str) (h : d ≠ 10) :
    replaceCRLF (13 :: d :: rest) = 13 :: replaceCRLF (d :: rest) := by
  conv_lhs => unfold replaceCRLF
  split <;> simp_all

theorem fieldsAux_replaceCRLF (s : Str) : ∀ acc : Str,
    fieldsAux (replaceCRLF s) acc = fieldsAux s acc := by
  induction s with
  | nil => intro acc; rfl
  | cons c s ih =>
    intro acc
    by_cases hc : c = 13
    · subst hc
      match s with
      | [] => rfl
      | d :: rest =>
        by_cases hd : d = 10
        · subst hd
          have hred : replaceCRLF (13 :: 10 :: rest) = 10 :: replaceCRLF rest := rfl
          have h1 : replaceCRLF (10 :: rest) = 10 :: replaceCRLF rest :=
            replaceCRLF_cons_ne 10 rest (by decide)
          have ih' := ih acc
          rw [h1] at ih'
          rw [hred]
          have h13 : goIsSpace 13 = true := by decide
          have h10 : goIsSpace 10 = true := by decide
          simp only [fieldsAux, h13, h10, if_true] at ih' ⊢
          by_cases ha : acc = [] <;> simp_all
        · rw [replaceCRLF_cons13_ne d rest hd]
          have h13 : goIsSpace 13 = true := by decide
          simp only [fieldsAux, h13, if_true]
          by_cases ha : acc = [] <;> simp [ha, ih, fieldsAux]
    · rw [replaceCRLF_cons_ne c s hc]
      by_cases hsp : goIsSpace c
      · simp only [fieldsAux, hsp, if_true]
        by_cases ha : acc = [] <;> simp [ha, ih]
      · simp only [fieldsAux, hsp]
        simp [ih]

theorem fieldsAux_map (f : Nat → Nat) (hf : ∀ c, goIsSpace (f c) = goIsSpace c) :
    ∀ (s : Str) (acc : Str),
      fieldsAux (s.map f) (acc.map f) = (fieldsAux s acc).map (List.map f) := by
  intro s
  induction s with
  | nil =>
    intro acc
    by_cases ha : acc = [] <;> simp [fieldsAux, ha]
  | cons c s ih =>
    intro acc
    by_cases hc : goIsSpace c
    · have hfc : goIsSpace (f c) = true := by rw [hf]; exact hc
      have ih0 : fieldsAux (s.map f) [] = (fieldsAux s []).map (List.map f) := by
        simpa using ih []
      by_cases ha : acc = [] <;> simp [fieldsAux, hc, hfc, ha, ih0]
    · have hfc : goIsSpace (f c) = false := by rw [hf]; simpa using hc
      have := ih (c :: acc)
      simp only [List.map_cons] at this
      simp [fieldsAux, hc, hfc, this]

theorem goFields_map (f : Nat → Nat) (hf : ∀ c, goIsSpace (f c) = goIsSpace c) (s : Str) :
    goFields (s.map f) = (goFields s).map (List.map f) := by
  simpa using fieldsAux_map f hf s []

/-- Every field produced by `goFields` is nonempty and whitespace-free. -/
theorem fieldsAux_good : ∀ (s : Str) (acc : Str), (∀ c ∈ acc, goIsSpace c = false) →
    ∀ w ∈ fieldsAux s acc, w ≠ [] ∧ ∀ c ∈ w, goIsSpace c = false := by
  intro s
  induction s with
  | nil =>
    intro acc hacc w hw
    by_cases ha : acc = []
    · simp [fieldsAux, ha] at hw
    · simp only [fieldsAux, ha, if_false] at hw
      simp only [List.mem_singleton] at hw
      subst hw
      refine ⟨by simpa using ha, ?_⟩
      intro c hc
      exact hacc c (List.mem_reverse.mp hc)
  | cons c s ih =>
    intro acc hacc w hw
    by_cases hc : goIsSpace c
    · by_cases ha : acc = []
      · simp only [fieldsAux, hc, if_true, ha, if_pos rfl] at hw
        exact ih [] (by simp) w hw
      · simp only [fieldsAux, hc, if_true, ha, if_false, List.mem_cons] at hw
        rcases hw with hw | hw
        · subst hw
          refine ⟨by simpa using ha, ?_⟩
          intro d hd
          exact hacc d (List.mem_reverse.mp hd)
        · exact ih [] (by simp) w hw
    · simp only [fieldsAux, hc, if_false] at hw
      refine ih (c :: acc) ?_ w hw
      intro d hd
      rcases List.mem_cons.mp hd with hd | hd
      · subst hd; simpa using hc
      · exact hacc d hd

theorem goFields_good (s : Str) :
    ∀ w ∈ goFields s, w ≠ [] ∧ ∀ c ∈ w, goIsSpace c = false :=
  fieldsAux_good s [] (by simp)

theorem fieldsAux_word : ∀ (w : Str), (∀ c ∈ w, goIsSpace c = false) →
    ∀ (t : Str) (acc : Str), fieldsAux (w ++ t) acc = fieldsAux t (w.reverse ++ acc) := by
  intro w
  induction w with
  | nil => intro _ t acc; simp
  | cons c w ih =>
    intro hw t acc
    have hc : goIsSpace c = false := hw c (List.mem_cons_self c w)
    have hw' : ∀ d ∈ w, goIsSpace d = false := fun d hd => hw d (List.mem_cons_of_mem c hd)
    simp only [List.cons_append, fieldsAux, hc, Bool.false_eq_true, if_false]
    rw [List.append_eq, ih hw' t (c :: acc)]
    simp

theorem goFields_joinSpace : ∀ (ws : List Str),
    (∀ w ∈ ws, w ≠ [] ∧ ∀ c ∈ w, goIsSpace c = false) →
    goFields (joinSpace ws) = ws := by
  intro ws
  induction ws with
  | nil => intro _; rfl
  | cons w ws ih =>
    intro h
    have hw := h w (List.mem_cons_self w ws)
    match ws with
    | [] =>
      show goFields w = [w]
      unfold goFields
      rw [show w = w ++ ([] : Str) by simp, fieldsAux_word w hw.2 [] []]
      simp only [fieldsAux, List.append_nil]
      rw [if_neg (by simpa using hw.1)]
      simp
    | w2 :: ws' =>
      have h' : ∀ x ∈ w2 :: ws', x ≠ [] ∧ ∀ c ∈ x, goIsSpace c = false :=
        fun x hx => h x (List.mem_cons_of_mem w hx)
      show goFields (w ++ 32 :: joinSpace (w2 :: ws')) = w :: w2 :: ws'
      unfold goFields
      rw [fieldsAux_word w hw.2 _ []]
      have h32 : goIsSpace 32 = true := by decide
      simp only [fieldsAux, h32, if_true, List.append_nil]
      rw [if_neg (by simpa using hw.1)]
      have := ih h'
      unfold goFields at this
      rw [this]
      simp

theorem joinSpace_map (f : Nat → Nat) (hf32 : f 32 = 32) : ∀ ws : List Str,
    joinSpace (ws.map (List.map f)) = (joinSpace ws).map f := by
  intro ws
  induction ws with
  | nil => rfl
  | cons w ws ih =>
    match ws with
    | [] => rfl
    | w2 :: ws' =>
      show List.map f w ++ 32 :: joinSpace ((w2 :: ws').map (List.map f))
        = (w ++ 32 :: joinSpace (w2 :: ws')).map f
      rw [ih]
      simp [hf32]

/-- `normalizeCommand` in canonical form: split into fields, rejoin with
single spaces, lower-case. -/
theorem normalizeCommand_canon (s : Str) :
    normalizeCommand s = strToLower (joinSpace (goFields s)) := by
  unfold normalizeCommand
  by_cases h : goTrimSpace s = []
  · rw [if_pos h]
    have : goFields s = [] := by
      rw [← goFields_goTrimSpace s, h]
      rfl
    rw [this, h]
    rfl
  · rw [if_neg h]
    have htab : ∀ c, goIsSpace (if c = 9 then 32 else c) = goIsSpace c := by
      intro c
      by_cases hc : c = 9
      · subst hc; decide
      · rw [if_neg hc]
    have h1 : goFields (replaceTab (replaceCRLF (goTrimSpace s))) = goFields s := by
      unfold replaceTab
      rw [goFields_map _ htab]
      have h2 : goFields (replaceCRLF (goTrimSpace s)) = goFields s := by
        unfold goFields
        rw [fieldsAux_replaceCRLF]
        exact goFields_goTrimSpace s
      rw [h2]
      have hid : ∀ w ∈ goFields s, List.map (fun c => if c = 9 then 32 else c) w = id w := by
        intro w hw
        have hns := (goFields_good s w hw).2
        simp only [id]
        conv_rhs => rw [← List.map_id w]
        apply List.map_congr_left
        intro c hc
        simp only [id]
        rw [if_neg]
        intro h9
        subst h9
        have := hns 9 hc
        simp [goIsSpace] at this
      rw [List.map_congr_left hid, List.map_id]
    show strToLower (joinSpace (goFields (replaceTab (replaceCRLF (goTrimSpace s)))))
      = strToLower (joinSpace (goFields s))
    rw [h1]

theorem prefixPairs_iff : ∀ (as bs : List Str), as.length ≤ bs.length →
    (prefixPairs as bs = true ↔
      ∀ (i : Nat) (h1 : i < as.length) (h2 : i < bs.length),
        as.get ⟨i, h1⟩ <+: bs.get ⟨i, h2⟩) := by
  intro as
  induction as with
  | nil =>
    intro bs _
    simp [prefixPairs]
  | cons a as ih =>
    intro bs hlen
    match bs with
    | [] => simp at hlen
    | b :: bs' =>
      simp only [prefixPairs, Bool.and_eq_true]
      rw [ih bs' (by simpa using hlen)]
      constructor
      · rintro ⟨hab, h⟩ i h1 h2
        match i with
        | 0 => simpa [strStarts, List.isPrefixOf_iff_prefix] using hab
        | i + 1 => exact h i (by simpa using h1) (by simpa using h2)
      · intro h
        constructor
        · have := h 0 (by simp) (by simp)
          simpa [strStarts, List.isPrefixOf_iff_prefix] using this
        · intro i h1 h2
          exact h (i + 1) (by simpa using h1) (by simpa using h2)

/-!
## Claim theorems
-/

/-- C9.  `normalizeCommand` is idempotent: normalizing an already
normalized command string changes nothing. -/
theorem claim_C9 (s : Str) :
    normalizeCommand (normalizeCommand s) = normalizeCommand s := by
  rw [normalizeCommand_canon s, normalizeCommand_canon]
  have hgood := goFields_good s
  have h1 : goFields (strToLower (joinSpace (goFields s)))
      = (goFields s).map (List.map goToLower) := by
    unfold strToLower
    rw [goFields_map goToLower goIsSpace_goToLower, goFields_joinSpace (goFields s) hgood]
  rw [h1, joinSpace_map goToLower (by decide)]
  show strToLower (strToLower (joinSpace (goFields s))) = strToLower (joinSpace (goFields s))
  exact strToLower_idem _

/-- C3.  `prefixMatchByWords input candidate` holds iff, after normalizing
both sides and splitting into whitespace-delimited words, the input has at
least one word, the candidate has at least as many words as the input, and
each input word is a literal code-point prefix of the candidate word at the
same position. -/
theorem claim_C3 (input candidate : Str) :
    prefixMatchByWords input candidate = true ↔
      (goFields (normalizeCommand input) ≠ [] ∧
       (goFields (normalizeCommand input)).length ≤ (goFields (normalizeCommand candidate)).length ∧
       ∀ (i : Nat) (h1 : i < (goFields (normalizeCommand input)).length)
         (h2 : i < (goFields (normalizeCommand candidate)).length),
         (goFields (normalizeCommand input)).get ⟨i, h1⟩ <+:
           (goFields (normalizeCommand candidate)).get ⟨i, h2⟩) := by
  unfold prefixMatchByWords
  by_cases hin : goFields (normalizeCommand input) = []
  · simp [hin]
  · rw [if_neg hin]
    by_cases hlen : (goFields (normalizeCommand candidate)).length
        < (goFields (normalizeCommand input)).length
    · rw [if_pos hlen]
      constructor
      · intro h; exact absurd h (by simp)
      · rintro ⟨-, h2, -⟩; omega
    · rw [if_neg hlen]
      rw [prefixPairs_iff _ _ (by omega)]
      constructor
      · intro h
        exact ⟨hin, by omega, h⟩
      · rintro ⟨-, -, h⟩
        exact h

/-!
## Match-scan lemmas
-/

/-- The first component of the scan is the first normalized-equal record. -/
theorem scanItems_fst (inNorm input : Str) : ∀ l : List SimDeviceCommand,
    (scanItems inNorm input l).1
      = l.find? (fun r => inNorm == normalizeCommand r.command) := by
  intro l
  induction l with
  | nil => rfl
  | cons it rest ih =>
    rw [scanItems]
    by_cases h : inNorm = normalizeCommand it.command
    · rw [if_pos h]
      have hbeq : (inNorm == normalizeCommand it.command) = true := by simpa using h
      simp [List.find?, hbeq]
    · rw [if_neg h]
      have hbeq : (inNorm == normalizeCommand it.command) = false := by simpa using h
      rcases hscan : scanItems inNorm input rest with ⟨e, cs⟩
      have ih' := ih
      rw [hscan] at ih'
      simp only at ih'
      by_cases hpm : prefixMatchByWords input it.command <;>
        simp [hpm, List.find?, hbeq, ih']

/-- When no candidate is normalized-equal to the input, the scan collects
exactly the positional-prefix matches, in order. -/
theorem scanItems_noExact (inNorm input : Str) : ∀ l : List SimDeviceCommand,
    (∀ r ∈ l, inNorm ≠ normalizeCommand r.command) →
    scanItems inNorm input l
      = (none, l.filter (fun r => prefixMatchByWords input r.command)) := by
  intro l
  induction l with
  | nil => intro _; rfl
  | cons it rest ih =>
    intro h
    have h1 : inNorm ≠ normalizeCommand it.command := h it (List.mem_cons_self it rest)
    rw [scanItems, if_neg h1, ih (fun r hr => h r (List.mem_cons_of_mem it hr))]
    by_cases hpm : prefixMatchByWords input it.command <;> simp [List.filter_cons, hpm]

theorem classifyMatch_exact (input : Str) (items : List SimDeviceCommand)
    (e : SimDeviceCommand)
    (hfirst : items.find? (fun r => normalizeCommand input == normalizeCommand r.command)
      = some e) :
    classifyMatch input items = ⟨str "exact", e.output⟩ := by
  unfold classifyMatch
  have hfst := scanItems_fst (normalizeCommand input) input items
  rw [hfirst] at hfst
  rcases hscan : scanItems (normalizeCommand input) input items with ⟨e?, cs⟩
  rw [hscan] at hfst
  simp only at hfst
  subst hfst
  rfl

theorem classifyMatch_noExact (input : Str) (items : List SimDeviceCommand)
    (hno : ∀ r ∈ items, normalizeCommand input ≠ normalizeCommand r.command) :
    classifyMatch input items =
      match items.filter (fun r => prefixMatchByWords input r.command) with
      | [c] => ⟨str "partial_single", c.output⟩
      | [] => ⟨str "none", str "unspport command"⟩
      | cs =>
        ⟨str "partial_multi",
          joinNL (str "which command do you mean?" ::
            cs.map (fun it => str " -- " ++ goTrimSpace it.command))⟩ := by
  unfold classifyMatch
  rw [scanItems_noExact (normalizeCommand input) input items hno]
  generalize List.filter (fun r => prefixMatchByWords input r.command) items = l
  rcases l with - | ⟨c, - | ⟨d, cs⟩⟩ <;> rfl

/-- C10.  `MatchSimDeviceCmd` is read-only: whatever the request and
outcome, the store — every record and every field — is returned unchanged;
nothing is created or deleted. -/
theorem claim_C10 (st : Store) (reqNS reqDev reqCmd : Str) (eo : Bool) :
    (matchSimDeviceCmd st reqNS reqDev reqCmd eo).1 = st := by
  simp only [matchSimDeviceCmd]
  split <;> rfl

/-- C4.  If some candidate's normalized command equals the normalized
input, the match operation answers `exact` with the output of the first
such candidate in scan order, never a partial or none result. -/
theorem claim_C4 (st : Store) (reqNS reqDev reqCmd : Str) (eo : Bool) (e : SimDeviceCommand)
    (hns : goTrimSpace reqNS ≠ []) (hdev : goTrimSpace reqDev ≠ [])
    (hcmd : goTrimSpace reqCmd ≠ [])
    (hfirst : (matchCandidates st (goTrimSpace reqNS) (goTrimSpace reqDev) eo).find?
        (fun r => normalizeCommand (goTrimSpace reqCmd) == normalizeCommand r.command)
      = some e) :
    matchSimDeviceCmd st reqNS reqDev reqCmd eo
      = (st, .ok ⟨str "exact", e.output⟩) := by
  simp only [matchSimDeviceCmd]
  rw [if_neg (by simp [hns, hdev, hcmd])]
  rw [classifyMatch_exact _ _ e hfirst]

/-- C4 witness: candidates `"show version"`/`"show ver"`, input
`"show version"` answers `exact` with the first record's output. -/
theorem claim_C4_witness :
    matchSimDeviceCmd
        ⟨3, [⟨1, str "ns", str "d", str "show version", str "V", true⟩,
             ⟨2, str "ns", str "d", str "show ver", str "W", true⟩]⟩
        (str "ns") (str "d") (str "show version") false
      = (⟨3, [⟨1, str "ns", str "d", str "show version", str "V", true⟩,
              ⟨2, str "ns", str "d", str "show ver", str "W", true⟩]⟩,
          .ok ⟨str "exact", str "V"⟩) :=
  claim_C4 _ _ _ _ _ ⟨1, str "ns", str "d", str "show version", str "V", true⟩
    (by decide) (by decide) (by decide) (by decide)

/-- C5.  With no exact match, the result depends only on the list of
positional-prefix-matching candidates: none → `none` with output exactly
"unspport command"; exactly one → `partial_single` with its output; several
→ `partial_multi` whose output is the header "which command do you mean?"
followed by one `" -- "`-prefixed trimmed command per candidate, in scan
order, newline-joined. -/
theorem claim_C5 (st : Store) (reqNS reqDev reqCmd : Str) (eo : Bool)
    (hns : goTrimSpace reqNS ≠ []) (hdev : goTrimSpace reqDev ≠ [])
    (hcmd : goTrimSpace reqCmd ≠ [])
    (hno : ∀ r ∈ matchCandidates st (goTrimSpace reqNS) (goTrimSpace reqDev) eo,
      normalizeCommand (goTrimSpace reqCmd) ≠ normalizeCommand r.command) :
    ∀ cs, cs = (matchCandidates st (goTrimSpace reqNS) (goTrimSpace reqDev) eo).filter
        (fun r => prefixMatchByWords (goTrimSpace reqCmd) r.command) →
      (cs = [] → matchSimDeviceCmd st reqNS reqDev reqCmd eo
        = (st, .ok ⟨str "none", str "unspport command"⟩)) ∧
      (∀ c, cs = [c] → matchSimDeviceCmd st reqNS reqDev reqCmd eo
        = (st, .ok ⟨str "partial_single", c.output⟩)) ∧
      (1 < cs.length → matchSimDeviceCmd st reqNS reqDev reqCmd eo
        = (st, .ok ⟨str "partial_multi",
            joinNL (str "which command do you mean?" ::
              cs.map (fun it => str " -- " ++ goTrimSpace it.command))⟩)) := by
  intro cs hcs
  have hbody : matchSimDeviceCmd st reqNS reqDev reqCmd eo
      = (st, .ok (classifyMatch (goTrimSpace reqCmd)
          (matchCandidates st (goTrimSpace reqNS) (goTrimSpace reqDev) eo))) := by
    simp only [matchSimDeviceCmd]
    rw [if_neg (by simp [hns, hdev, hcmd])]
  have hclass := classifyMatch_noExact (goTrimSpace reqCmd)
    (matchCandidates st (goTrimSpace reqNS) (goTrimSpace reqDev) eo) hno
  rw [← hcs] at hclass
  refine ⟨?_, ?_, ?_⟩
  · intro h
    subst h
    rw [hbody, hclass]
  · intro c h
    subst h
    rw [hbody, hclass]
  · intro h
    rcases cs with - | ⟨c, - | ⟨d, cs'⟩⟩
    · simp at h
    · simp at h
    · rw [hbody, hclass]

/-- C5 witness: candidates `"show ip route"`/`"show ip running-config"`,
input `"sh ip r"` answers `partial_multi` with the disambiguation block. -/
theorem claim_C5_witness :
    matchSimDeviceCmd
        ⟨3, [⟨1, str "ns", str "d", str "show ip route", str "R", true⟩,
             ⟨2, str "ns", str "d", str "show ip running-config", str "RC", true⟩]⟩
        (str "ns") (str "d") (str "sh ip r") false
      = (⟨3, [⟨1, str "ns", str "d", str "show ip route", str "R", true⟩,
              ⟨2, str "ns", str "d", str "show ip running-config", str "RC", true⟩]⟩,
          .ok ⟨str "partial_multi",
            str "which command do you mean?\n -- show ip route\n -- show ip running-config"⟩) := by
  have h := (claim_C5
    ⟨3, [⟨1, str "ns", str "d", str "show ip route", str "R", true⟩,
         ⟨2, str "ns", str "d", str "show ip running-config", str "RC", true⟩]⟩
    (str "ns") (str "d") (str "sh ip r") false
    (by decide) (by decide) (by decide) (by decide)
    [⟨1, str "ns", str "d", str "show ip route", str "R", true⟩,
     ⟨2, str "ns", str "d", str "show ip running-config", str "RC", true⟩]
    (by decide)).2.2 (by decide)
  exact h.trans (by decide)

/-!
## Store and create/update lemmas
-/

theorem find?_eq_some_of_unique {α : Type} (p : α → Bool) :
    ∀ (l : List α) (x : α), x ∈ l → p x = true →
    (∀ y ∈ l, p y = true → y = x) → l.find? p = some x := by
  intro l
  induction l with
  | nil => intro x hx _ _; simp at hx
  | cons a l ih =>
    intro x hx hpx huniq
    by_cases hpa : p a = true
    · have hax : a = x := huniq a (List.mem_cons_self a l) hpa
      simp [List.find?, hpa, hax, hpx]
    · have hbeq : p a = false := by simpa using hpa
      have hxl : x ∈ l := by
        rcases List.mem_cons.mp hx with h | h
        · subst h; exact absurd hpx hpa
        · exact h
      simp only [List.find?, hbeq]
      exact ih x hxl hpx (fun y hy hpy => huniq y (List.mem_cons_of_mem a hy) hpy)

theorem find?_append_none {α : Type} (p : α → Bool) :
    ∀ (l1 l2 : List α), l1.find? p = none → (l1 ++ l2).find? p = l2.find? p := by
  intro l1
  induction l1 with
  | nil => intro l2 _; rfl
  | cons a l ih =>
    intro l2 hnone
    have hpa : p a = false := by
      by_contra hpa
      have : p a = true := by simpa using hpa
      simp [List.find?, this] at hnone
    have hl : l.find? p = none := by
      simpa [List.find?, hpa] using hnone
    simp [List.find?, hpa, ih l2 hl]

/-- The insert path of `CreateSimDeviceCmd`: no case-insensitive duplicate,
so a fresh record is appended; `enabled` is forced to `true`, the command is
stored trimmed but otherwise verbatim. -/
theorem create_insert (st : Store) (req : CmdReq)
    (hns : goTrimSpace req.nspace ≠ []) (hdev : goTrimSpace req.deviceName ≠ [])
    (hcmd : goTrimSpace req.command ≠ [])
    (hnone : findByKey st (goTrimSpace req.nspace) (goTrimSpace req.deviceName)
      (goTrimSpace req.command) = none) :
    createSimDeviceCmd st req =
      (⟨st.nextId + 1, st.records ++
          [⟨st.nextId, goTrimSpace req.nspace, goTrimSpace req.deviceName,
            goTrimSpace req.command, req.output, true⟩]⟩,
        .created ⟨st.nextId, goTrimSpace req.nspace, goTrimSpace req.deviceName,
          goTrimSpace req.command, req.output, true⟩) := by
  simp only [createSimDeviceCmd]
  rw [if_neg (by simp [hns, hdev, hcmd]), hnone]
  cases hb : req.enabled <;> rfl

/-- The upsert path of `CreateSimDeviceCmd`: a case-insensitive duplicate
exists, so its output and enabled flag are refreshed in place. -/
theorem create_upsert (st : Store) (req : CmdReq) (existing : SimDeviceCommand)
    (hns : goTrimSpace req.nspace ≠ []) (hdev : goTrimSpace req.deviceName ≠ [])
    (hcmd : goTrimSpace req.command ≠ [])
    (hfound : findByKey st (goTrimSpace req.nspace) (goTrimSpace req.deviceName)
      (goTrimSpace req.command) = some existing) :
    createSimDeviceCmd st req =
      (updateById st existing.id
          (fun r => { r with
            output := req.output,
            enabled := if !req.enabled then true else req.enabled }),
        .updatedExisting { existing with
          output := req.output,
          enabled := if !req.enabled then true else req.enabled }) := by
  simp only [createSimDeviceCmd]
  rw [if_neg (by simp [hns, hdev, hcmd]), hfound]

/-- C7.  A create that inserts a new record always stores `enabled = true`,
whether the caller omitted the flag or explicitly sent `enabled = false`
(the handler turns any false flag into true before inserting). -/
theorem claim_C7 (st : Store) (req : CmdReq)
    (hns : goTrimSpace req.nspace ≠ []) (hdev : goTrimSpace req.deviceName ≠ [])
    (hcmd : goTrimSpace req.command ≠ [])
    (hnone : findByKey st (goTrimSpace req.nspace) (goTrimSpace req.deviceName)
      (goTrimSpace req.command) = none) :
    ∃ r, (createSimDeviceCmd st req).2 = .created r ∧
      r ∈ (createSimDeviceCmd st req).1.records ∧ r.enabled = true := by
  refine ⟨⟨st.nextId, goTrimSpace req.nspace, goTrimSpace req.deviceName,
    goTrimSpace req.command, req.output, true⟩, ?_, ?_, rfl⟩
  · rw [create_insert st req hns hdev hcmd hnone]
  · rw [create_insert st req hns hdev hcmd hnone]
    simp

/-- C7 witness: a create that explicitly passes `enabled = false` still
yields a record with `enabled = true`. -/
theorem claim_C7_witness :
    ∃ r, (createSimDeviceCmd Store.init ⟨str "n", str "d", str "c", str "o", false⟩).2
        = .created r ∧
      r ∈ (createSimDeviceCmd Store.init ⟨str "n", str "d", str "c", str "o", false⟩).1.records ∧
      r.enabled = true :=
  claim_C7 Store.init ⟨str "n", str "d", str "c", str "o", false⟩
    (by decide) (by decide) (by decide) (by decide)

/-- C6 counterexample: the stored command is NOT the caller-supplied string
verbatim — `CreateSimDeviceCmd` trims it first (part_000 line 55), so the
command `" Show  IP "` is stored as `"Show  IP"`, losing the surrounding
whitespace (interior whitespace and casing are preserved). -/
theorem claim_C6_counterexample :
    (createSimDeviceCmd Store.init ⟨str "n", str "d", str " Show  IP ", str "o", true⟩).2
        = .created ⟨1, str "n", str "d", str "Show  IP", str "o", true⟩ ∧
      str "Show  IP" ≠ str " Show  IP " := by decide

/-- C6 amended: a create that inserts stores the caller-supplied command
with leading/trailing whitespace trimmed but otherwise verbatim (interior
whitespace and casing preserved, never the normalized form), and leaves
every previously stored record — its command included — untouched. -/
theorem claim_C6_amended (st : Store) (req : CmdReq)
    (hns : goTrimSpace req.nspace ≠ []) (hdev : goTrimSpace req.deviceName ≠ [])
    (hcmd : goTrimSpace req.command ≠ [])
    (hnone : findByKey st (goTrimSpace req.nspace) (goTrimSpace req.deviceName)
      (goTrimSpace req.command) = none) :
    ∃ r, createSimDeviceCmd st req = (⟨st.nextId + 1, st.records ++ [r]⟩, .created r) ∧
      r.command = goTrimSpace req.command :=
  ⟨_, create_insert st req hns hdev hcmd hnone, rfl⟩

/-- C6 witness: instance of the amended statement at a concrete request. -/
theorem claim_C6_witness :
    ∃ r, createSimDeviceCmd Store.init ⟨str "n", str "d", str " Show  IP ", str "o", true⟩
        = (⟨Store.init.nextId + 1, Store.init.records ++ [r]⟩, .created r) ∧
      r.command = goTrimSpace (str " Show  IP ") :=
  claim_C6_amended Store.init ⟨str "n", str "d", str " Show  IP ", str "o", true⟩
    (by decide) (by decide) (by decide) (by decide)

/-- C1 counterexample: two creates for the same namespace and device whose
commands normalize to the same string (`"a  b"` vs `"a b"`, whitespace-only
difference) leave TWO stored records, because the create dedup key is
`LOWER(command)` of the trimmed command, which does not collapse interior
whitespace. -/
theorem claim_C1_counterexample :
    normalizeCommand (str "a  b") = normalizeCommand (str "a b") ∧
    ((createSimDeviceCmd
        (createSimDeviceCmd Store.init ⟨str "ns", str "d", str "a  b", str "o1", true⟩).1
        ⟨str "ns", str "d", str "a b", str "o2", true⟩).1).records.length = 2 := by decide

/-- C1 amended: the create dedup key is case-insensitive equality of the
TRIMMED command (SQL `LOWER`), not full whitespace normalization.  Two
creates that agree on namespace, device, and lower-cased trimmed command
(into a store with no record for that key) leave exactly one stored record
for that key, and it carries the second create's output. -/
theorem claim_C1_amended (st : Store) (req1 req2 : CmdReq)
    (hIds : ∀ r ∈ st.records, r.id < st.nextId)
    (hns : goTrimSpace req1.nspace ≠ []) (hdev : goTrimSpace req1.deviceName ≠ [])
    (hcmd1 : goTrimSpace req1.command ≠ [])
    (hns12 : goTrimSpace req1.nspace = goTrimSpace req2.nspace)
    (hdev12 : goTrimSpace req1.deviceName = goTrimSpace req2.deviceName)
    (hkey : strToLower (goTrimSpace req1.command) = strToLower (goTrimSpace req2.command))
    (hnone : st.records.filter (keyMatch (goTrimSpace req1.nspace)
      (goTrimSpace req1.deviceName) (goTrimSpace req1.command)) = []) :
    ((createSimDeviceCmd (createSimDeviceCmd st req1).1 req2).1).records.filter
        (keyMatch (goTrimSpace req1.nspace) (goTrimSpace req1.deviceName)
          (goTrimSpace req1.command))
      = [⟨st.nextId, goTrimSpace req1.nspace, goTrimSpace req1.deviceName,
          goTrimSpace req1.command, req2.output, true⟩] := by
  have hfind1 : findByKey st (goTrimSpace req1.nspace) (goTrimSpace req1.deviceName)
      (goTrimSpace req1.command) = none :=
    List.find?_eq_none.mpr (List.filter_eq_nil_iff.mp hnone)
  have hstep1 : (createSimDeviceCmd st req1).1
      = (⟨st.nextId + 1, st.records ++
          [⟨st.nextId, goTrimSpace req1.nspace, goTrimSpace req1.deviceName,
            goTrimSpace req1.command, req1.output, true⟩]⟩ : Store) := by
    rw [create_insert st req1 hns hdev hcmd1 hfind1]
  have hns2 : goTrimSpace req2.nspace ≠ [] := by rw [← hns12]; exact hns
  have hdev2 : goTrimSpace req2.deviceName ≠ [] := by rw [← hdev12]; exact hdev
  have hcmd2 : goTrimSpace req2.command ≠ [] := by
    intro h
    apply hcmd1
    have h0 : strToLower (goTrimSpace req1.command) = [] := by
      rw [hkey, h]; rfl
    simpa [strToLower, List.map_eq_nil_iff] using h0
  have hpred : ∀ r : SimDeviceCommand,
      keyMatch (goTrimSpace req2.nspace) (goTrimSpace req2.deviceName)
        (goTrimSpace req2.command) r
      = keyMatch (goTrimSpace req1.nspace) (goTrimSpace req1.deviceName)
        (goTrimSpace req1.command) r := by
    intro r
    unfold keyMatch
    rw [← hns12, ← hdev12, ← hkey]
  have hfound : findByKey (⟨st.nextId + 1, st.records ++
        [⟨st.nextId, goTrimSpace req1.nspace, goTrimSpace req1.deviceName,
          goTrimSpace req1.command, req1.output, true⟩]⟩ : Store)
      (goTrimSpace req2.nspace) (goTrimSpace req2.deviceName) (goTrimSpace req2.command)
      = some ⟨st.nextId, goTrimSpace req1.nspace, goTrimSpace req1.deviceName,
          goTrimSpace req1.command, req1.output, true⟩ := by
    unfold findByKey
    rw [find?_append_none _ st.records _ ?hn]
    case hn =>
      apply List.find?_eq_none.mpr
      intro r hr
      rw [hpred r]
      exact List.filter_eq_nil_iff.mp hnone r hr
    have hp : keyMatch (goTrimSpace req2.nspace) (goTrimSpace req2.deviceName)
        (goTrimSpace req2.command)
        ⟨st.nextId, goTrimSpace req1.nspace, goTrimSpace req1.deviceName,
          goTrimSpace req1.command, req1.output, true⟩ = true := by
      rw [hpred]
      simp [keyMatch]
    simp [List.find?, hp]
  have hen2 : (if !req2.enabled then true else req2.enabled) = true := by
    cases req2.enabled <;> rfl
  have hstep2 : (createSimDeviceCmd (⟨st.nextId + 1, st.records ++
        [⟨st.nextId, goTrimSpace req1.nspace, goTrimSpace req1.deviceName,
          goTrimSpace req1.command, req1.output, true⟩]⟩ : Store) req2).1
      = (⟨st.nextId + 1, st.records ++
          [⟨st.nextId, goTrimSpace req1.nspace, goTrimSpace req1.deviceName,
            goTrimSpace req1.command, req2.output, true⟩]⟩ : Store) := by
    rw [create_upsert _ req2 _ hns2 hdev2 hcmd2 hfound]
    simp only [updateById, List.map_append, List.map_cons, List.map_nil]
    have hmap : st.records.map
        (fun r => if r.id = st.nextId then
          { r with output := req2.output,
                   enabled := if !req2.enabled then true else req2.enabled } else r)
        = st.records := by
      conv_rhs => rw [← List.map_id st.records]
      apply List.map_congr_left
      intro r hr
      have := hIds r hr
      rw [if_neg (by omega)]
      rfl
    rw [hmap]
    simp only [if_true]
    rw [hen2]
  rw [hstep1, hstep2]
  simp only [List.filter_append]
  rw [hnone]
  have hp1 : keyMatch (goTrimSpace req1.nspace) (goTrimSpace req1.deviceName)
      (goTrimSpace req1.command)
      ⟨st.nextId, goTrimSpace req1.nspace, goTrimSpace req1.deviceName,
        goTrimSpace req1.command, req2.output, true⟩ = true := by
    simp [keyMatch]
  simp [List.filter_cons, hp1]

/-- C1 witness: second create with a case-only different command converges
onto one record carrying the second output. -/
theorem claim_C1_witness :
    ((createSimDeviceCmd
        (createSimDeviceCmd Store.init ⟨str "ns", str "d", str "Show IP", str "o1", true⟩).1
        ⟨str "ns", str "d", str "show ip", str "o2", true⟩).1).records.filter
        (keyMatch (goTrimSpace (str "ns")) (goTrimSpace (str "d")) (goTrimSpace (str "Show IP")))
      = [⟨Store.init.nextId, goTrimSpace (str "ns"), goTrimSpace (str "d"),
          goTrimSpace (str "Show IP"), str "o2", true⟩] :=
  claim_C1_amended Store.init
    ⟨str "ns", str "d", str "Show IP", str "o1", true⟩
    ⟨str "ns", str "d", str "show ip", str "o2", true⟩
    (by decide) (by decide) (by decide) (by decide) (by decide) (by decide)
    (by decide) (by decide)

theorem findById_deleteById (st : Store) (i : Nat) : findById (deleteById st i) i = none := by
  unfold findById deleteById
  apply List.find?_eq_none.mpr
  intro r hr
  have h2 := (List.mem_filter.mp hr).2
  simp at h2 ⊢
  exact h2

theorem update_found (st : Store) (id : Nat) (req : CmdReq) (item : SimDeviceCommand)
    (hid : ¬ id ≤ 0) (hfind : findById st id = some item) :
    updateSimDeviceCmd st id req = updateWithItem st item req := by
  simp only [updateSimDeviceCmd]
  rw [if_neg hid, hfind]

theorem updateWithItem_merge (st : Store) (item other : SimDeviceCommand) (req : CmdReq)
    (hfound : findByKey st
        (if goTrimSpace req.nspace = [] then item.nspace else goTrimSpace req.nspace)
        (if goTrimSpace req.deviceName = [] then item.deviceName else goTrimSpace req.deviceName)
        (if goTrimSpace req.command = [] then item.command else goTrimSpace req.command)
      = some other)
    (hne : other.id ≠ item.id) :
    updateWithItem st item req = updateMerge st item other req := by
  simp only [updateWithItem]
  rw [hfound]
  show (if other.id ≠ item.id then updateMerge st item other req else _)
    = updateMerge st item other req
  rw [if_pos hne]

/-- C2.  Merge-on-update: when the target's prospective key (blank fields
falling back to current values) is occupied by a different record — under
the documented per-key uniqueness invariant — the other record survives
with the incoming output (target's current output if the incoming one is
blank) and the incoming enabled flag, the target is deleted (getting its id
afterwards answers not-found), and the response carries the survivor. -/
theorem claim_C2 (st : Store) (id : Nat) (req : CmdReq) (item other : SimDeviceCommand)
    (hid : 0 < id)
    (hfind : findById st id = some item)
    (hKU : st.KeyUnique)
    (hmem : other ∈ st.records) (hne : other.id ≠ item.id)
    (hkeyNS : other.nspace
      = (if goTrimSpace req.nspace = [] then item.nspace else goTrimSpace req.nspace))
    (hkeyDev : other.deviceName
      = (if goTrimSpace req.deviceName = [] then item.deviceName else goTrimSpace req.deviceName))
    (hkeyCmd : strToLower other.command
      = strToLower (if goTrimSpace req.command = [] then item.command else goTrimSpace req.command)) :
    (updateSimDeviceCmd st id req).2
        = .merged { other with
            output := if goTrimSpace req.output ≠ [] then req.output else item.output,
            enabled := req.enabled } ∧
      { other with
        output := if goTrimSpace req.output ≠ [] then req.output else item.output,
        enabled := req.enabled } ∈ (updateSimDeviceCmd st id req).1.records ∧
      getSimDeviceCmd (updateSimDeviceCmd st id req).1 item.id
        = ((updateSimDeviceCmd st id req).1, .notFound) := by
  have hp : keyMatch
      (if goTrimSpace req.nspace = [] then item.nspace else goTrimSpace req.nspace)
      (if goTrimSpace req.deviceName = [] then item.deviceName else goTrimSpace req.deviceName)
      (if goTrimSpace req.command = [] then item.command else goTrimSpace req.command)
      other = true := by
    simp [keyMatch, ← hkeyNS, ← hkeyDev, ← hkeyCmd]
  have huniq : ∀ y ∈ st.records, keyMatch
      (if goTrimSpace req.nspace = [] then item.nspace else goTrimSpace req.nspace)
      (if goTrimSpace req.deviceName = [] then item.deviceName else goTrimSpace req.deviceName)
      (if goTrimSpace req.command = [] then item.command else goTrimSpace req.command)
      y = true → y = other := by
    intro y hy hpy
    simp only [keyMatch, Bool.and_eq_true, beq_iff_eq] at hpy
    exact hKU y hy other hmem (hpy.1.1.trans hkeyNS.symm) (hpy.1.2.trans hkeyDev.symm)
      (hpy.2.trans hkeyCmd.symm)
  have hfound : findByKey st
      (if goTrimSpace req.nspace = [] then item.nspace else goTrimSpace req.nspace)
      (if goTrimSpace req.deviceName = [] then item.deviceName else goTrimSpace req.deviceName)
      (if goTrimSpace req.command = [] then item.command else goTrimSpace req.command)
      = some other :=
    find?_eq_some_of_unique _ st.records other hmem hp huniq
  have hup : updateSimDeviceCmd st id req = updateMerge st item other req := by
    rw [update_found st id req item (by omega) hfind,
      updateWithItem_merge st item other req hfound hne]
  have hitem : item.id = id := by
    have := List.find?_some hfind
    simpa using this
  rw [hup]
  refine ⟨rfl, ?_, ?_⟩
  · simp only [updateMerge, updateById, deleteById]
    apply List.mem_filter.mpr
    constructor
    · have hmm := List.mem_map_of_mem
        (fun r => if r.id = other.id then
          { r with
            output := if goTrimSpace req.output ≠ [] then req.output else item.output,
            enabled := req.enabled } else r) hmem
      simpa using hmm
    · simpa using hne
  · have hnone2 : findById (updateMerge st item other req).1 item.id = none := by
      simp only [updateMerge]
      exact findById_deleteById _ item.id
    simp only [getSimDeviceCmd]
    rw [if_neg (by omega), hnone2]

/-- C2 witness: records A=(ns,dev,"cmd1") and B=(ns,dev,"cmd2"); updating A
with command "CMD2" and output "newout" merges onto B, deletes A, and
responds with the refreshed B. -/
theorem claim_C2_witness :
    (updateSimDeviceCmd
        ⟨3, [⟨1, str "ns", str "dev", str "cmd1", str "outA", true⟩,
             ⟨2, str "ns", str "dev", str "cmd2", str "outB", true⟩]⟩
        1 ⟨str "", str "", str "CMD2", str "newout", true⟩).2
        = .merged { (⟨2, str "ns", str "dev", str "cmd2", str "outB", true⟩ : SimDeviceCommand) with
            output := if goTrimSpace (str "newout") ≠ [] then str "newout"
              else (⟨1, str "ns", str "dev", str "cmd1", str "outA", true⟩ : SimDeviceCommand).output,
            enabled := true } ∧
      { (⟨2, str "ns", str "dev", str "cmd2", str "outB", true⟩ : SimDeviceCommand) with
        output := if goTrimSpace (str "newout") ≠ [] then str "newout"
          else (⟨1, str "ns", str "dev", str "cmd1", str "outA", true⟩ : SimDeviceCommand).output,
        enabled := true } ∈
        (updateSimDeviceCmd
          ⟨3, [⟨1, str "ns", str "dev", str "cmd1", str "outA", true⟩,
               ⟨2, str "ns", str "dev", str "cmd2", str "outB", true⟩]⟩
          1 ⟨str "", str "", str "CMD2", str "newout", true⟩).1.records ∧
      getSimDeviceCmd
          (updateSimDeviceCmd
            ⟨3, [⟨1, str "ns", str "dev", str "cmd1", str "outA", true⟩,
                 ⟨2, str "ns", str "dev", str "cmd2", str "outB", true⟩]⟩
            1 ⟨str "", str "", str "CMD2", str "newout", true⟩).1
          (⟨1, str "ns", str "dev", str "cmd1", str "outA", true⟩ : SimDeviceCommand).id
        = ((updateSimDeviceCmd
            ⟨3, [⟨1, str "ns", str "dev", str "cmd1", str "outA", true⟩,
                 ⟨2, str "ns", str "dev", str "cmd2", str "outB", true⟩]⟩
            1 ⟨str "", str "", str "CMD2", str "newout", true⟩).1, .notFound) :=
  claim_C2
    ⟨3, [⟨1, str "ns", str "dev", str "cmd1", str "outA", true⟩,
         ⟨2, str "ns", str "dev", str "cmd2", str "outB", true⟩]⟩
    1 ⟨str "", str "", str "CMD2", str "newout", true⟩
    ⟨1, str "ns", str "dev", str "cmd1", str "outA", true⟩
    ⟨2, str "ns", str "dev", str "cmd2", str "outB", true⟩
    (by decide) (by decide) (by decide) (by decide) (by decide)
    (by decide) (by decide) (by decide)

/-- C8 counterexample: deleting a positive id that does not exist does NOT
surface a not-found error — gorm's `Delete` reports zero rows affected
without an error, so `DeleteSimDeviceCmd` answers success (part_000 lines
197–211 have no not-found branch at all). -/
theorem claim_C8_counterexample :
    deleteSimDeviceCmd Store.init 5 = (Store.init, DeleteResult.success) := by decide

/-- C8 amended: get and update invoked with a positive id for which no
record exists surface not-found directly and mutate nothing; delete with a
positive absent id also mutates nothing but reports success — the delete
path has no not-found error. -/
theorem claim_C8_amended (st : Store) (id : Nat) (hpos : 0 < id)
    (habsent : findById st id = none) :
    getSimDeviceCmd st id = (st, .notFound) ∧
    (∀ req : CmdReq, updateSimDeviceCmd st id req = (st, .notFound)) ∧
    deleteSimDeviceCmd st id = (st, .success) := by
  refine ⟨?_, ?_, ?_⟩
  · simp only [getSimDeviceCmd]
    rw [if_neg (by omega), habsent]
  · intro req
    simp only [updateSimDeviceCmd]
    rw [if_neg (by omega), habsent]
  · simp only [deleteSimDeviceCmd]
    rw [if_neg (by omega)]
    have hf : st.records.filter (fun r => r.id ≠ id) = st.records := by
      apply List.filter_eq_self.mpr
      intro r hr
      have := List.find?_eq_none.mp habsent r hr
      simpa using this
    unfold deleteById
    rw [hf]

/-- C8 witness: instance of the amended statement on the empty store. -/
theorem claim_C8_witness :
    getSimDeviceCmd Store.init 7 = (Store.init, .notFound) ∧
    (∀ req : CmdReq, updateSimDeviceCmd Store.init 7 req = (Store.init, .notFound)) ∧
    deleteSimDeviceCmd Store.init 7 = (Store.init, .success) :=
  claim_C8_amended Store.init 7 (by decide) (by decide)

